import Mathlib

/-!
Verification development for the NILE operator console core: the stand-mode
state machine (`stand.rs`), the command-sequence engine (`sequence.rs`), the
telemetry field decoder and value codec (`serial.rs`), and the GUI-level
sequence constructions (`gui.rs`), shallowly embedded as executable Lean
definitions with their key invariants proved below.
-/

namespace Nile

/-- State of a single valve (`stand.rs`, `ValveState`). `Open` is rendered
`opened` since `open` is a Lean keyword. -/
inductive ValveState
  | opened
  | closed
deriving DecidableEq, Repr

/-- The different modes that the NILE stand software can take on
(`stand.rs`, `StandMode`). The Rust `Default` is `Safing`. -/
inductive StandMode
  | checkOut
  | oxygenFilling
  | pressurizationAndFiring
  | safing
deriving DecidableEq, Repr

/-- Structure representing the state of the NILE stand (`stand.rs`,
`StandState`). A valve whose field is absent or non-boolean is `none`
("Unknown"). -/
structure StandState where
  stand_mode : StandMode
  valve_np1 : Option ValveState
  valve_np2 : Option ValveState
  valve_np3 : Option ValveState
  valve_np4 : Option ValveState
  valve_ip1 : Option ValveState
  valve_ip2 : Option ValveState
  valve_ip3 : Option ValveState
deriving DecidableEq, Repr

/-- Failures for transitioning between stand modes (`stand.rs`,
`ModeTransitionError`): carries the static message string. -/
structure ModeTransitionError where
  msg : String
deriving DecidableEq, Repr

/-- `stand.rs` `check_pretransition_ox_filling`: error unless valves NP3 and
NP4 both read `Closed`.  The Rust code is a struct pattern match on
`valve_np3`/`valve_np4` being `Some(Closed)`, rendered here as the equivalent
conjunction test. -/
def check_pretransition_ox_filling (state : StandState) : Except ModeTransitionError Unit :=
  if state.valve_np3 = some ValveState.closed ∧ state.valve_np4 = some ValveState.closed then
    Except.ok ()
  else
    Except.error ⟨"Expected valves NP3 and NP4 to be closed"⟩

/-- `stand.rs` `check_transition_ox_filling`: error unless all seven valves
read `Closed`.  The Rust code is a struct pattern match on all seven fields
being `Some(Closed)`, rendered here as the equivalent conjunction test. -/
def check_transition_ox_filling (state : StandState) : Except ModeTransitionError Unit :=
  if state.valve_np1 = some ValveState.closed ∧ state.valve_np2 = some ValveState.closed ∧
      state.valve_np3 = some ValveState.closed ∧ state.valve_np4 = some ValveState.closed ∧
      state.valve_ip1 = some ValveState.closed ∧ state.valve_ip2 = some ValveState.closed ∧
      state.valve_ip3 = some ValveState.closed then
    Except.ok ()
  else
    Except.error ⟨"Expected all valves to be closed"⟩

/-- `stand.rs` `StandMode::check_transition`: the check for moving out of the
current mode (`state.stand_mode`), then the check for moving into `self`
(here `target`).  The `?` operator is rendered as a match on the first
check's result. -/
def StandMode.check_transition (target : StandMode) (state : StandState) :
    Except ModeTransitionError Unit :=
  let pre : Except ModeTransitionError Unit :=
    match state.stand_mode with
    | StandMode.checkOut => Except.ok ()
    | StandMode.oxygenFilling => check_pretransition_ox_filling state
    | StandMode.pressurizationAndFiring => Except.ok ()
    | StandMode.safing => Except.ok ()
  match pre with
  | Except.error e => Except.error e
  | Except.ok _ =>
    match target with
    | StandMode.checkOut => Except.ok ()
    | StandMode.oxygenFilling => check_transition_ox_filling state
    | StandMode.pressurizationAndFiring => Except.ok ()
    | StandMode.safing => Except.ok ()

/-- `stand.rs` `StandState::transition_mode`: Rust mutates `self.stand_mode`
only after `check_transition` succeeds; the mutation is modelled by returning
the updated state together with the error, if any. -/
def transition_mode (s : StandState) (mode : StandMode) :
    StandState × Option ModeTransitionError :=
  match mode.check_transition s with
  | Except.ok _ => ({ s with stand_mode := mode }, none)
  | Except.error e => (s, some e)

/-- All seven valves of the stand state read `Closed` (the condition of
`check_transition_ox_filling`). -/
def allValvesClosed (s : StandState) : Prop :=
  s.valve_np1 = some ValveState.closed ∧ s.valve_np2 = some ValveState.closed ∧
    s.valve_np3 = some ValveState.closed ∧ s.valve_np4 = some ValveState.closed ∧
    s.valve_ip1 = some ValveState.closed ∧ s.valve_ip2 = some ValveState.closed ∧
    s.valve_ip3 = some ValveState.closed

instance (s : StandState) : Decidable (allValvesClosed s) := by
  unfold allValvesClosed; infer_instance

/-- Characterization of `check_transition`: the only failing checks are the
oxygen-filling exit and entry interlocks, tried in that order. -/
lemma check_transition_eq (target : StandMode) (s : StandState) :
    target.check_transition s =
      if s.stand_mode = StandMode.oxygenFilling ∧
          ¬(s.valve_np3 = some ValveState.closed ∧ s.valve_np4 = some ValveState.closed) then
        Except.error ⟨"Expected valves NP3 and NP4 to be closed"⟩
      else if target = StandMode.oxygenFilling ∧ ¬ allValvesClosed s then
        Except.error ⟨"Expected all valves to be closed"⟩
      else Except.ok () := by
  unfold StandMode.check_transition check_pretransition_ox_filling check_transition_ox_filling
    allValvesClosed
  cases hs : s.stand_mode <;> cases target <;>
    simp only [hs, reduceCtorEq, true_and, false_and, not_false_eq_true, not_true_eq_false,
      if_true, if_false, ite_true, ite_false, and_true, and_false, eq_self_iff_true] <;>
    split_ifs <;> simp_all

/-- C1: transitioning to `OxygenFilling` succeeds if and only if all seven
valves currently read `Closed`; whenever some valve is open or unknown the
call returns an error and the stored `StandMode` (indeed the whole state) is
unchanged. -/
theorem oxygen_filling_entry_interlock (s : StandState) :
    ((transition_mode s StandMode.oxygenFilling).2 = none ↔ allValvesClosed s) ∧
      (transition_mode s StandMode.oxygenFilling).1 =
        if allValvesClosed s then { s with stand_mode := StandMode.oxygenFilling } else s := by
  have h := check_transition_eq StandMode.oxygenFilling s
  unfold transition_mode
  rw [h]
  split_ifs with h1 h2 h3 <;> simp_all [allValvesClosed]

/-- Witness for C1 at a concrete state: with every valve closed the
transition into oxygen filling succeeds. -/
theorem oxygen_filling_entry_interlock_witness :
    (transition_mode
        ⟨StandMode.safing, some ValveState.closed, some ValveState.closed,
          some ValveState.closed, some ValveState.closed, some ValveState.closed,
          some ValveState.closed, some ValveState.closed⟩ StandMode.oxygenFilling).2 = none := by
  have h := oxygen_filling_entry_interlock
    ⟨StandMode.safing, some ValveState.closed, some ValveState.closed,
      some ValveState.closed, some ValveState.closed, some ValveState.closed,
      some ValveState.closed, some ValveState.closed⟩
  exact h.1.mpr (by decide)

/-- C6: while in `OxygenFilling`, a transition to any other mode succeeds if
and only if NP3 and NP4 both read `Closed`; on failure the state is
unchanged. -/
theorem oxygen_filling_exit_interlock (s : StandState) (m : StandMode)
    (hcur : s.stand_mode = StandMode.oxygenFilling) (hne : m ≠ StandMode.oxygenFilling) :
    ((transition_mode s m).2 = none ↔
        s.valve_np3 = some ValveState.closed ∧ s.valve_np4 = some ValveState.closed) ∧
      (transition_mode s m).1 =
        if s.valve_np3 = some ValveState.closed ∧ s.valve_np4 = some ValveState.closed then
          { s with stand_mode := m }
        else s := by
  have h := check_transition_eq m s
  unfold transition_mode
  rw [h]
  split_ifs with h1 h2 h3 <;> simp_all

/-- Witness for C6 at a concrete state: in `OxygenFilling` with NP3 and NP4
closed (NP1 still open), moving to `Safing` succeeds. -/
theorem oxygen_filling_exit_interlock_witness :
    (transition_mode
        ⟨StandMode.oxygenFilling, some ValveState.opened, none, some ValveState.closed,
          some ValveState.closed, none, none, none⟩ StandMode.safing).2 = none := by
  have h := oxygen_filling_exit_interlock
    ⟨StandMode.oxygenFilling, some ValveState.opened, none, some ValveState.closed,
      some ValveState.closed, none, none, none⟩ StandMode.safing rfl (by decide)
  exact h.1.mpr (by decide)

/-- A "handle" to a valve present on the NILE test stand (`sequence.rs`,
`ValveHandle`). -/
inductive ValveHandle
  | np1
  | np2
  | np3
  | np4
  | ip1
  | ip2
  | ip3
deriving DecidableEq, Repr

/-- The `Display` impl for `ValveHandle` in `sequence.rs`. -/
def ValveHandle.display : ValveHandle → String
  | ValveHandle.np1 => "NP1"
  | ValveHandle.np2 => "NP2"
  | ValveHandle.np3 => "NP3"
  | ValveHandle.np4 => "NP4"
  | ValveHandle.ip1 => "IP1"
  | ValveHandle.ip2 => "IP2"
  | ValveHandle.ip3 => "IP3"

/-- A command that can be sent over serial to the NILE test stand
(`sequence.rs`, `Command`).  `Duration` values are modelled as exact rational
numbers of seconds. -/
inductive Command
  | openValve (v : ValveHandle)
  | closeValve (v : ValveHandle)
  | ignite
  | wait (seconds : ℚ)
  | done
deriving DecidableEq, Repr

/-- A sequence of commands (`sequence.rs`, `CommandSequence`). -/
structure CommandSequence where
  commands : List Command
deriving DecidableEq, Repr

/-- `CommandSequence::new`. -/
def CommandSequence.new : CommandSequence := ⟨[]⟩

/-- `CommandSequence::then`: append a command and return the sequence (named
`then'` because `then` is a Lean keyword). -/
def CommandSequence.then' (seq : CommandSequence) (command : Command) : CommandSequence :=
  ⟨seq.commands ++ [command]⟩

/-- Model of the outbound `mpsc::Sender<Vec<u8>>` side of the command
channel: the list of wire messages accepted so far, plus the point at which
the receiving side hangs up (`closedAt = some k` means the receiver accepts
only the first `k` messages; `none` means it stays alive).  `send` fails
exactly when the receiver has hung up, like `Sender::send`. -/
structure RunState where
  sent : List String
  closedAt : Option Nat
deriving DecidableEq, Repr

/-- A send on the modelled channel: accepted while the receiver is still
listening, otherwise the message comes back as the `SendError` payload. -/
def RunState.send (rs : RunState) (msg : String) : Except String RunState :=
  match rs.closedAt with
  | none => Except.ok { rs with sent := rs.sent ++ [msg] }
  | some k =>
    if rs.sent.length < k then Except.ok { rs with sent := rs.sent ++ [msg] }
    else Except.error msg

/-- `sequence.rs` `Command::run`: valve commands and `Ignite` are serialized
to wire text and pushed to the sender; `Wait` sleeps (time is not modelled)
and `Done` sleeps briefly and logs, both always succeeding. -/
def Command.runCmd : Command → RunState → Except String RunState
  | Command.openValve v, rs => rs.send ("\nOPEN:" ++ v.display ++ "\n")
  | Command.closeValve v, rs => rs.send ("\nCLOSE:" ++ v.display ++ "\n")
  | Command.ignite, rs => rs.send "\nIGNITE\n"
  | Command.wait _, rs => Except.ok rs
  | Command.done, rs => Except.ok rs

/-- `sequence.rs` `CommandSequence::run` (the loop body): run each command in
list order, stopping at the first failed send.  The channel state is threaded
through so that the messages already sent remain observable, mirroring the
side effects on the real `Sender`. -/
def runCmds : List Command → RunState → RunState × Option String
  | [], rs => (rs, none)
  | c :: cs, rs =>
    match c.runCmd rs with
    | Except.ok rs2 => runCmds cs rs2
    | Except.error m => (rs, some m)

/-- `CommandSequence::run` on the modelled channel. -/
def CommandSequence.run (seq : CommandSequence) (rs : RunState) : RunState × Option String :=
  runCmds seq.commands rs

/-- The wire text of a command, if it sends one (`OpenValve`/`CloseValve`/
`Ignite`); `Wait` and `Done` put nothing on the wire. -/
def Command.wire : Command → Option String
  | Command.openValve v => some ("\nOPEN:" ++ v.display ++ "\n")
  | Command.closeValve v => some ("\nCLOSE:" ++ v.display ++ "\n")
  | Command.ignite => some "\nIGNITE\n"
  | Command.wait _ => none
  | Command.done => none

/-- The wire messages of a command list, in order. -/
def wireMessages (cmds : List Command) : List String :=
  cmds.filterMap Command.wire

lemma runCmd_eq_wire (c : Command) (rs : RunState) :
    c.runCmd rs = match c.wire with
      | some m => rs.send m
      | none => Except.ok rs := by
  cases c <;> rfl

lemma runCmds_closed (cmds : List Command) :
    ∀ (sent : List String) (k : Nat),
      runCmds cmds ⟨sent, some k⟩ =
        (⟨sent ++ (wireMessages cmds).take (k - sent.length), some k⟩,
          if k - sent.length < (wireMessages cmds).length then
            (wireMessages cmds).drop (k - sent.length) |>.head?
          else none) := by
  induction cmds with
  | nil => intro sent k; simp [runCmds, wireMessages]
  | cons c cs ih =>
    intro sent k
    rw [runCmds, runCmd_eq_wire]
    cases hw : c.wire with
    | none =>
      have hms : wireMessages (c :: cs) = wireMessages cs := by
        simp [wireMessages, List.filterMap_cons, hw]
      rw [hms]; exact ih sent k
    | some m =>
      have hms : wireMessages (c :: cs) = m :: wireMessages cs := by
        simp [wireMessages, List.filterMap_cons, hw]
      rw [hms]
      simp only [RunState.send]
      by_cases hlt : sent.length < k
      · rw [if_pos hlt]
        dsimp only
        rw [ih (sent ++ [m]) k]
        have hsub : k - (sent ++ [m]).length = k - sent.length - 1 := by
          simp only [List.length_append, List.length_cons, List.length_nil]; omega
        have hpos : k - sent.length = (k - sent.length - 1) + 1 := by omega
        have htake : List.take (k - sent.length) (m :: wireMessages cs) =
            m :: List.take (k - sent.length - 1) (wireMessages cs) := by
          conv_lhs => rw [hpos]
          rw [List.take_succ_cons]
        have hdrop : List.drop (k - sent.length) (m :: wireMessages cs) =
            List.drop (k - sent.length - 1) (wireMessages cs) := by
          conv_lhs => rw [hpos]
          rw [List.drop_succ_cons]
        have hiff : (k - sent.length < (m :: wireMessages cs).length) ↔
            (k - sent.length - 1 < (wireMessages cs).length) := by
          simp only [List.length_cons]; omega
        rw [hsub, htake, hdrop]
        simp only [hiff, List.append_assoc, List.singleton_append]
      · rw [if_neg hlt]
        dsimp only
        have hz : k - sent.length = 0 := by omega
        simp [hz]

lemma runCmds_open (cmds : List Command) :
    ∀ sent : List String,
      runCmds cmds ⟨sent, none⟩ = (⟨sent ++ wireMessages cmds, none⟩, none) := by
  induction cmds with
  | nil => intro sent; simp [runCmds, wireMessages]
  | cons c cs ih =>
    intro sent
    rw [runCmds, runCmd_eq_wire]
    cases hw : c.wire with
    | none =>
      have hms : wireMessages (c :: cs) = wireMessages cs := by
        simp [wireMessages, List.filterMap_cons, hw]
      rw [hms]; exact ih sent
    | some m =>
      have hms : wireMessages (c :: cs) = m :: wireMessages cs := by
        simp [wireMessages, List.filterMap_cons, hw]
      rw [hms]
      simp only [RunState.send]
      rw [ih (sent ++ [m])]
      simp

/-- C9: running `[OpenValve(NP1), Wait(1s), CloseValve(NP1), Done]` against a
recording sink sends exactly the `OPEN:NP1` frame then the `CLOSE:NP1` frame
and nothing else; in general `run` sends the wire messages of the command
list strictly in list order, and when the receiver hangs up after `k`
messages only the first `k` wire messages are sent, the run aborting with the
first rejected message and sending none of the remaining commands. -/
theorem sequence_run_ordering :
    ((CommandSequence.new.then' (Command.openValve ValveHandle.np1)
        |>.then' (Command.wait 1)
        |>.then' (Command.closeValve ValveHandle.np1)
        |>.then' Command.done).run ⟨[], none⟩ =
      (⟨["\nOPEN:NP1\n", "\nCLOSE:NP1\n"], none⟩, none)) ∧
    (∀ cmds : List Command,
      runCmds cmds ⟨[], none⟩ = (⟨wireMessages cmds, none⟩, none)) ∧
    (∀ (cmds : List Command) (k : Nat),
      runCmds cmds ⟨[], some k⟩ =
        (⟨(wireMessages cmds).take k, some k⟩,
          if k < (wireMessages cmds).length then
            (wireMessages cmds).drop k |>.head?
          else none)) := by
  refine ⟨by decide, fun cmds => ?_, fun cmds k => ?_⟩
  · have h := runCmds_open cmds []
    simpa using h
  · have h := runCmds_closed cmds [] k
    simpa using h

/-- The fixed safety sequence built on entering Safing (`gui.rs`,
`GuiApp::set_mode`). -/
def safingSequence : CommandSequence :=
  CommandSequence.new
    |>.then' (Command.openValve ValveHandle.np3)
    |>.then' (Command.openValve ValveHandle.ip3)
    |>.then' (Command.closeValve ValveHandle.np1)
    |>.then' (Command.closeValve ValveHandle.np2)
    |>.then' (Command.closeValve ValveHandle.np4)
    |>.then' (Command.closeValve ValveHandle.ip1)
    |>.then' (Command.closeValve ValveHandle.ip2)

/-- The sequence built by the "Depressurize System" button in Safing mode
(`gui.rs`). -/
def depressurizeSequence : CommandSequence :=
  CommandSequence.new
    |>.then' (Command.openValve ValveHandle.np3)
    |>.then' (Command.openValve ValveHandle.ip3)
    |>.then' (Command.wait 1)
    |>.then' (Command.openValve ValveHandle.np4)
    |>.then' (Command.wait 5)
    |>.then' (Command.closeValve ValveHandle.np4)
    |>.then' (Command.wait 1)
    |>.then' (Command.openValve ValveHandle.ip2)
    |>.then' (Command.wait 5)
    |>.then' (Command.closeValve ValveHandle.ip2)
    |>.then' (Command.wait 1)
    |>.then' (Command.openValve ValveHandle.np2)
    |>.then' (Command.wait 5)
    |>.then' (Command.closeValve ValveHandle.np2)
    |>.then' (Command.wait 1)
    |>.then' Command.done

/-- The sequence built by the "Fire" button in PressurizationAndFiring mode
(`gui.rs`).  `valve_np1_ip1_offset` (an `f32` in the source) and `fire_time`
(a `Duration`) are modelled as exact rationals of seconds; the source's
`offset >= 0` test and `abs` are the rational ones. -/
def fireSequence (valve_np1_ip1_offset fire_time : ℚ) : CommandSequence :=
  let wait_time : ℚ := 1
  let seq := CommandSequence.new
    |>.then' Command.ignite
    |>.then' (Command.wait wait_time)
  let seq :=
    if 0 ≤ valve_np1_ip1_offset then
      seq
        |>.then' (Command.openValve ValveHandle.np1)
        |>.then' (Command.wait valve_np1_ip1_offset)
        |>.then' (Command.openValve ValveHandle.ip1)
    else
      seq
        |>.then' (Command.openValve ValveHandle.ip1)
        |>.then' (Command.wait |valve_np1_ip1_offset|)
        |>.then' (Command.openValve ValveHandle.np1)
  seq
    |>.then' (Command.wait fire_time)
    |>.then' (Command.wait 3)
    |>.then' (Command.closeValve ValveHandle.np2)
    |>.then' (Command.closeValve ValveHandle.ip2)
    |>.then' (Command.openValve ValveHandle.np3)
    |>.then' (Command.openValve ValveHandle.ip3)
    |>.then' (Command.wait 2)
    |>.then' (Command.closeValve ValveHandle.np1)
    |>.then' (Command.closeValve ValveHandle.ip1)
    |>.then' Command.done

/-- The portion of the GUI application state (`gui.rs`, `GuiApp`) that the
mode-change path touches, with the outbound command channel modelled by a
`RunState`. -/
structure NileGui where
  serial_conn_has_died : Bool
  stand_state : StandState
  ox_fail_popup : Bool
  channel : RunState
deriving DecidableEq, Repr

/-- The second half of `gui.rs` `GuiApp::set_mode`: attempt the mode
transition, raising the oxygen-filling failure popup when a transition from
or to `OxygenFilling` fails (the transition error is also logged). -/
def NileGui.apply_transition (g1 : NileGui) (mode : StandMode) : NileGui :=
  match transition_mode g1.stand_state mode with
  | (s2, none) => { g1 with stand_state := s2 }
  | (s2, some _) =>
    if g1.stand_state.stand_mode = StandMode.oxygenFilling ∨ mode = StandMode.oxygenFilling then
      { g1 with stand_state := s2, ox_fail_popup := true }
    else
      { g1 with stand_state := s2 }

/-- `gui.rs` `GuiApp::set_mode`: on a Safing target, first run the fixed
safing sequence synchronously (`run_sequence`), marking the serial connection
dead on a send error; then attempt the mode transition
(`apply_transition`). -/
def NileGui.set_mode (g : NileGui) (mode : StandMode) : NileGui :=
  let g1 :=
    if mode = StandMode.safing then
      match safingSequence.run g.channel with
      | (rs, none) => { g with channel := rs }
      | (rs, some _) => { g with channel := rs, serial_conn_has_died := true }
    else g
  g1.apply_transition mode

lemma apply_transition_preserves (g1 : NileGui) (mode : StandMode) :
    (g1.apply_transition mode).channel = g1.channel ∧
      (g1.apply_transition mode).serial_conn_has_died = g1.serial_conn_has_died := by
  unfold NileGui.apply_transition
  rcases h : transition_mode g1.stand_state mode with ⟨s2, e⟩
  cases e
  · exact ⟨rfl, rfl⟩
  · dsimp only
    split <;> exact ⟨rfl, rfl⟩

/-- How many of the next `n` messages the modelled channel can still accept. -/
def sendRoom (rs : RunState) (n : Nat) : Nat :=
  match rs.closedAt with
  | none => n
  | some k => min (k - rs.sent.length) n

/-- C4: entering Safing dispatches, unconditionally (for any GUI state) and
synchronously, the fixed safing sequence, whose wire messages open NP3 and
IP3 and close NP1, NP2, NP4, IP1 and IP2 and nothing else; the caller
observes a transport failure through `serial_conn_has_died`, which becomes
set precisely when the channel cannot accept all seven messages. -/
theorem safing_entry_dispatch (g : NileGui) :
    ((g.set_mode StandMode.safing).channel.sent =
        g.channel.sent ++ (wireMessages safingSequence.commands).take (sendRoom g.channel 7)) ∧
      ((g.set_mode StandMode.safing).serial_conn_has_died =
        (g.serial_conn_has_died || decide (sendRoom g.channel 7 < 7))) ∧
      wireMessages safingSequence.commands =
        ["\nOPEN:NP3\n", "\nOPEN:IP3\n", "\nCLOSE:NP1\n", "\nCLOSE:NP2\n",
          "\nCLOSE:NP4\n", "\nCLOSE:IP1\n", "\nCLOSE:IP2\n"] := by
  have hwire : wireMessages safingSequence.commands =
      ["\nOPEN:NP3\n", "\nOPEN:IP3\n", "\nCLOSE:NP1\n", "\nCLOSE:NP2\n",
        "\nCLOSE:NP4\n", "\nCLOSE:IP1\n", "\nCLOSE:IP2\n"] := by decide
  have key : ∀ (rs : RunState) (e : Option String), safingSequence.run g.channel = (rs, e) →
      (g.set_mode StandMode.safing).channel = rs ∧
        (g.set_mode StandMode.safing).serial_conn_has_died =
          (g.serial_conn_has_died || e.isSome) := by
    intro rs e h
    have hset : g.set_mode StandMode.safing = NileGui.apply_transition
        (match safingSequence.run g.channel with
          | (rs2, none) => { g with channel := rs2 }
          | (rs2, some _) => { g with channel := rs2, serial_conn_has_died := true })
        StandMode.safing := by
      unfold NileGui.set_mode
      rw [if_pos rfl]
    rw [hset, h]
    cases e
    · obtain ⟨hc, hd⟩ := apply_transition_preserves { g with channel := rs } StandMode.safing
      exact ⟨hc, by rw [hd]; simp⟩
    · obtain ⟨hc, hd⟩ :=
        apply_transition_preserves { g with channel := rs, serial_conn_has_died := true }
          StandMode.safing
      exact ⟨hc, by rw [hd]; simp⟩
  have hlen : (wireMessages safingSequence.commands).length = 7 := by rw [hwire]; rfl
  cases hca : g.channel.closedAt with
  | none =>
    have hch : g.channel = ⟨g.channel.sent, none⟩ := by rw [← hca]
    have hrun : safingSequence.run g.channel =
        (⟨g.channel.sent ++ wireMessages safingSequence.commands, none⟩, none) := by
      rw [CommandSequence.run, hch]
      exact runCmds_open safingSequence.commands g.channel.sent
    obtain ⟨hc, hd⟩ := key _ _ hrun
    have hroom : sendRoom g.channel 7 = 7 := by unfold sendRoom; rw [hca]
    have htk : (wireMessages safingSequence.commands).take 7 =
        wireMessages safingSequence.commands := by
      apply List.take_of_length_le; omega
    refine ⟨?_, ?_, hwire⟩
    · rw [hc, hroom, htk]
    · rw [hd, hroom]
      simp
  | some k =>
    have hch : g.channel = ⟨g.channel.sent, some k⟩ := by rw [← hca]
    have hrun : safingSequence.run g.channel =
        (⟨g.channel.sent ++
            (wireMessages safingSequence.commands).take (k - g.channel.sent.length), some k⟩,
          if k - g.channel.sent.length < (wireMessages safingSequence.commands).length then
            (List.drop (k - g.channel.sent.length) (wireMessages safingSequence.commands)).head?
          else none) := by
      rw [CommandSequence.run, hch]
      exact runCmds_closed safingSequence.commands g.channel.sent k
    obtain ⟨hc, hd⟩ := key _ _ hrun
    have hroom : sendRoom g.channel 7 = min (k - g.channel.sent.length) 7 := by
      unfold sendRoom; rw [hca]
    have htk : (wireMessages safingSequence.commands).take (min (k - g.channel.sent.length) 7) =
        (wireMessages safingSequence.commands).take (k - g.channel.sent.length) := by
      by_cases hlt : k - g.channel.sent.length < 7
      · rw [show min (k - g.channel.sent.length) 7 = k - g.channel.sent.length by omega]
      · rw [show min (k - g.channel.sent.length) 7 = 7 by omega,
          List.take_of_length_le (by omega), List.take_of_length_le (by omega)]
    refine ⟨?_, ?_, hwire⟩
    · rw [hc, hroom, htk]
    · rw [hd, hroom]
      by_cases hlt : k - g.channel.sent.length < 7
      · rw [if_pos (by omega)]
        have hne : List.drop (k - g.channel.sent.length)
            (wireMessages safingSequence.commands) ≠ [] := by
          rw [ne_eq, List.drop_eq_nil_iff]
          omega
        rcases hx : (List.drop (k - g.channel.sent.length)
            (wireMessages safingSequence.commands)).head? with _ | msg
        · exact absurd (List.head?_eq_none_iff.mp hx) hne
        · simp only [hx, Option.isSome_some]
          have : min (k - g.channel.sent.length) 7 < 7 := by omega
          simp [this]
      · rw [if_neg (by omega)]
        have : ¬ min (k - g.channel.sent.length) 7 < 7 := by omega
        simp [this]

/-- The Depressurize step list exactly as claim C3 states it (following the
spec's words), for comparison against the sequence the code builds. -/
def specDepressurizeCommands : List Command :=
  [Command.openValve ValveHandle.np4, Command.wait 5, Command.closeValve ValveHandle.np4,
    Command.wait 1, Command.openValve ValveHandle.ip2, Command.wait 5,
    Command.closeValve ValveHandle.ip2, Command.wait 1, Command.openValve ValveHandle.np2,
    Command.wait 5, Command.closeValve ValveHandle.np2, Command.wait 1, Command.done]

/-- Counterexample to C3 as stated: the sequence the code builds is not the
claimed step list (three extra commands precede it). -/
theorem depressurize_sequence_not_as_claimed :
    depressurizeSequence.commands ≠ specDepressurizeCommands := by decide

/-- C3 (amended): the Depressurize sequence is open NP3, open IP3, wait 1s,
followed exactly by the claimed steps: open NP4, wait 5s, close NP4, wait 1s,
open IP2, wait 5s, close IP2, wait 1s, open NP2, wait 5s, close NP2, wait 1s,
Done — nothing else. -/
theorem depressurize_sequence_steps :
    depressurizeSequence.commands =
      [Command.openValve ValveHandle.np3, Command.openValve ValveHandle.ip3, Command.wait 1] ++
        specDepressurizeCommands := by decide

/-- The Fire step list exactly as claim C2 states it (following the spec's
words), for comparison against the sequence the code builds. -/
def specFireCommands (offset fire_time : ℚ) : List Command :=
  [Command.ignite, Command.wait 1] ++
    (if 0 ≤ offset then
      [Command.openValve ValveHandle.np1, Command.wait offset, Command.openValve ValveHandle.ip1]
    else
      [Command.openValve ValveHandle.ip1, Command.wait |offset|,
        Command.openValve ValveHandle.np1]) ++
    [Command.wait fire_time, Command.wait 3, Command.closeValve ValveHandle.np1,
      Command.closeValve ValveHandle.ip1, Command.closeValve ValveHandle.np2,
      Command.closeValve ValveHandle.ip2, Command.openValve ValveHandle.np3,
      Command.openValve ValveHandle.ip3, Command.done]

/-- Counterexample to C2 as stated: already at offset 0 and burn time 0 the
sequence the code builds differs from the claimed step list (the code closes
NP2/IP2, opens the vents, waits 2s and only then closes NP1/IP1). -/
theorem fire_sequence_not_as_claimed :
    (fireSequence 0 0).commands ≠ specFireCommands 0 0 := by decide

/-- C2 (amended): the Fire sequence is Ignite, wait 1s, open NP1 and IP1
ordered by the signed offset, wait the burn duration then a fixed 3s purge,
then close NP2 and IP2 and open NP3 and IP3 to vent, wait a further 2s, then
close NP1 and IP1, then Done — exactly these steps in exactly this order,
putting exactly the listed frames on the wire. -/
theorem fire_sequence_steps (offset fire_time : ℚ) :
    (fireSequence offset fire_time).commands =
      [Command.ignite, Command.wait 1] ++
        (if 0 ≤ offset then
          [Command.openValve ValveHandle.np1, Command.wait offset,
            Command.openValve ValveHandle.ip1]
        else
          [Command.openValve ValveHandle.ip1, Command.wait |offset|,
            Command.openValve ValveHandle.np1]) ++
        [Command.wait fire_time, Command.wait 3, Command.closeValve ValveHandle.np2,
          Command.closeValve ValveHandle.ip2, Command.openValve ValveHandle.np3,
          Command.openValve ValveHandle.ip3, Command.wait 2,
          Command.closeValve ValveHandle.np1, Command.closeValve ValveHandle.ip1,
          Command.done] ∧
      wireMessages (fireSequence offset fire_time).commands =
        ["\nIGNITE\n"] ++
          (if 0 ≤ offset then ["\nOPEN:NP1\n", "\nOPEN:IP1\n"]
            else ["\nOPEN:IP1\n", "\nOPEN:NP1\n"]) ++
          ["\nCLOSE:NP2\n", "\nCLOSE:IP2\n", "\nOPEN:NP3\n", "\nOPEN:IP3\n",
            "\nCLOSE:NP1\n", "\nCLOSE:IP1\n"] := by
  by_cases h : 0 ≤ offset <;>
    simp [fireSequence, CommandSequence.new, CommandSequence.then', h, wireMessages,
      Command.wire, ValveHandle.display]

/-- Rust's `str::split(sep)`: the list of segments between occurrences of
`sep`; always nonempty, with empty segments kept. -/
def splitOnChar (sep : Char) : List Char → List (List Char)
  | [] => [[]]
  | c :: cs =>
    if c = sep then [] :: splitOnChar sep cs
    else
      match splitOnChar sep cs with
      | [] => [[c]]
      | l :: ls => (c :: l) :: ls

/-- Rust's `str::trim` on a character list (whitespace taken as Lean's
`Char.isWhitespace`, covering the ASCII whitespace appearing on this wire
format). -/
def trim (l : List Char) : List Char :=
  ((l.dropWhile Char.isWhitespace).reverse.dropWhile Char.isWhitespace).reverse

/-- The numeric value of a decimal digit character, if it is one. -/
def digitVal (c : Char) : Option Nat :=
  if '0' ≤ c ∧ c ≤ '9' then some (c.toNat - 48) else none

/-- Rust's decimal digit-run parsing (the core of `str::parse` for integer
types, after the sign): fails on an empty run or any non-digit. -/
def parseNatDigits (l : List Char) : Option Nat :=
  if l = [] then none
  else l.foldl (fun acc c => acc.bind (fun a => (digitVal c).map (fun d => a * 10 + d))) (some 0)

/-- Strip one leading `+` sign, as `u64::from_str` accepts. -/
def stripLeadingPlus (l : List Char) : List Char :=
  match l with
  | [] => l
  | c :: r => if c = '+' then r else l

/-- Split off one leading sign character, as `i64::from_str` and
`f64::from_str` accept: returns (negative?, rest). -/
def splitSign (l : List Char) : Bool × List Char :=
  match l with
  | [] => (false, l)
  | c :: r => if c = '+' then (false, r) else if c = '-' then (true, r) else (false, l)

/-- `str::parse::\x7bu64\x7d`: optional `+`, a nonempty digit run, value
within 64 bits (Rust reports overflow as an error, which coincides with the
final range test on the exact natural value). -/
def parseU64 (l : List Char) : Option Nat :=
  (parseNatDigits (stripLeadingPlus l)).bind
    (fun v => if v < 2 ^ 64 then some v else none)

/-- `str::parse::\x7bi64\x7d`: optional sign, a nonempty digit run, value
within the signed 64-bit range. -/
def parseI64 (l : List Char) : Option Int :=
  let p := splitSign l
  (parseNatDigits p.2).bind (fun v =>
    let i : Int := if p.1 then -(v : Int) else (v : Int)
    if -(2 ^ 63) ≤ i ∧ i < 2 ^ 63 then some i else none)

/-- The exact value of a digit run (used under an all-digits guard). -/
def digitsValue (l : List Char) : Nat :=
  l.foldl (fun a c => a * 10 + ((digitVal c).getD 0)) 0

/-- `str::parse::\x7bf64\x7d` over the sign/integer/fraction decimal subset
of Rust's float grammar, with the exact rational value of the literal (IEEE
rounding, exponents and `inf`/`nan` forms are outside the embedding; every
float literal a claim mentions is in this subset). -/
def parseFloatQ (l : List Char) : Option ℚ :=
  let p := splitSign l
  let signed : ℚ → ℚ := fun q => if p.1 then -q else q
  match splitOnChar '.' p.2 with
  | [ip] => (parseNatDigits ip).map (fun v => signed (v : ℚ))
  | [ip, fp] =>
    if ip = [] ∧ fp = [] then none
    else if (ip ++ fp).all (fun c => (digitVal c).isSome) then
      some (signed ((digitsValue ip : ℚ) + (digitsValue fp : ℚ) / (10 : ℚ) ^ fp.length))
    else none
  | _ => none

/-- A value from a sensor (`serial.rs`, `SensorValue`): `u64` as `Nat` and
`i64` as `Int` (ranges enforced by the parsers), `f64` as an exact `ℚ`. -/
inductive SensorValue
  | unsignedInt (v : Nat)
  | signedInt (v : Int)
  | float (v : ℚ)
  | boolean (v : Bool)
deriving DecidableEq, Repr

/-- A named sensor reading (`serial.rs`, `SensorField`); the name as a
character list. -/
structure SensorField where
  name : List Char
  value : SensorValue
deriving DecidableEq, Repr

/-- Parse failures (`serial.rs`, `FieldParseError`; names as in the
source). -/
inductive FieldParseError
  | missingValue
  | missingType
  | missingName
  | invalidType (token : List Char)
  | invalidValue (token : List Char)
  | toManyTokens
deriving DecidableEq, Repr

instance {e a : Type} [DecidableEq e] [DecidableEq a] : DecidableEq (Except e a) :=
  fun x y =>
    match x, y with
    | Except.ok u, Except.ok v =>
      if h : u = v then Decidable.isTrue (by rw [h])
      else Decidable.isFalse (fun hc => h (by cases hc; rfl))
    | Except.error u, Except.error v =>
      if h : u = v then Decidable.isTrue (by rw [h])
      else Decidable.isFalse (fun hc => h (by cases hc; rfl))
    | Except.ok _, Except.error _ => Decidable.isFalse (fun hc => Except.noConfusion hc)
    | Except.error _, Except.ok _ => Decidable.isFalse (fun hc => Except.noConfusion hc)

/-- `serial.rs` `parse_sensor_value`: split on `=`, reject more than two
tokens, then dispatch on the type tag `u`/`i`/`f`/`b`; boolean literals are
matched lowercased. -/
def parse_sensor_value (s : List Char) : Except FieldParseError SensorValue :=
  let tokens := splitOnChar '=' s
  if 2 < tokens.length then Except.error FieldParseError.toManyTokens
  else
    match tokens.head? with
    | none => Except.error FieldParseError.missingType
    | some type_token =>
      match (tokens.drop 1).head? with
      | none => Except.error FieldParseError.missingValue
      | some value_token =>
        if type_token = ['u'] then
          match parseU64 value_token with
          | some v => Except.ok (SensorValue.unsignedInt v)
          | none => Except.error (FieldParseError.invalidValue value_token)
        else if type_token = ['i'] then
          match parseI64 value_token with
          | some v => Except.ok (SensorValue.signedInt v)
          | none => Except.error (FieldParseError.invalidValue value_token)
        else if type_token = ['f'] then
          match parseFloatQ value_token with
          | some v => Except.ok (SensorValue.float v)
          | none => Except.error (FieldParseError.invalidValue value_token)
        else if type_token = ['b'] then
          if value_token.map Char.toLower = "true".toList then
            Except.ok (SensorValue.boolean true)
          else if value_token.map Char.toLower = "false".toList then
            Except.ok (SensorValue.boolean false)
          else Except.error (FieldParseError.invalidValue value_token)
        else Except.error (FieldParseError.invalidType type_token)

/-- `serial.rs` `parse_sensor_field`: split on `:`, reject more than two
tokens, trim and NUL-filter name and value token, parse the value. -/
def parse_sensor_field (s : List Char) : Except FieldParseError SensorField :=
  let tokens := splitOnChar ':' s
  if 2 < tokens.length then Except.error FieldParseError.toManyTokens
  else
    match tokens.head? with
    | none => Except.error FieldParseError.missingName
    | some t0 =>
      let name := (trim t0).filter (fun c => c ≠ Char.ofNat 0)
      match (tokens.drop 1).head? with
      | none => Except.error FieldParseError.missingType
      | some t1 =>
        let value_token := (trim t1).filter (fun c => c ≠ Char.ofNat 0)
        match parse_sensor_value value_token with
        | Except.ok v => Except.ok ⟨name, v⟩
        | Except.error e => Except.error e

/-- `serial.rs` `CHECKED_FIELD_NAMES`. -/
def CHECKED_FIELD_NAMES : List (List Char) :=
  ["NP1_OPEN".toList, "NP2_OPEN".toList, "NP3_OPEN".toList, "NP4_OPEN".toList,
    "IP1_OPEN".toList, "IP2_OPEN".toList, "IP3_OPEN".toList]

/-- Strip one trailing carriage return, as Rust's `str::lines` does per
line. -/
def stripCR (l : List Char) : List Char :=
  match l.reverse with
  | '\r' :: r => r.reverse
  | _ => l

/-- Rust's `str::lines`: split on `\n`, drop a final empty segment (i.e. a
trailing newline does not produce an empty last line), and strip one trailing
`\r` from each line. -/
def rustLines (s : List Char) : List (List Char) :=
  let parts := splitOnChar '\n' s
  let parts2 := if parts.getLast? = some [] then parts.dropLast else parts
  parts2.map stripCR

/-- Rust's `str::rsplit_once('\n')`: everything before the last newline and
everything after, or `none` when there is no newline. -/
def rsplitOnceNl : List Char → Option (List Char × List Char)
  | [] => none
  | c :: cs =>
    match rsplitOnceNl cs with
    | some (l, r) => some (c :: l, r)
    | none => if c = '\n' then some ([], cs) else none

/-- The per-line parsing stage of `read_fields`: parse each line, keeping the
successfully parsed fields (`filter_map(Result::ok)`). -/
def parsedFields (lines : List Char) : List SensorField :=
  (rustLines lines).filterMap (fun line => (parse_sensor_field line).toOption)

/-- The full line-processing stage of `read_fields`: parsed fields restricted
to the checked field names. -/
def fieldsOf (lines : List Char) : List SensorField :=
  (parsedFields lines).filter (fun field => decide (field.name ∈ CHECKED_FIELD_NAMES))

/-- The text-level core of `serial.rs` `read_fields`: append the carried-over
remainder, split at the last newline (`rsplit_once` with `("", text)` as the
fallback), parse the complete lines and carry the tail forward. -/
def read_fields_text (remainder read_text : List Char) : List Char × List SensorField :=
  let text := remainder ++ read_text
  match rsplitOnceNl text with
  | some (lines, rem) => (rem, fieldsOf lines)
  | none => (text, fieldsOf [])

/-- A UTF-8 continuation byte. -/
def isCont (b : Nat) : Prop := 0x80 ≤ b ∧ b < 0xC0

instance (b : Nat) : Decidable (isCont b) := by unfold isCont; infer_instance

/-- One step of standard UTF-8 validation and decoding, as
`String::from_utf8` performs it: consume one 1-4 byte sequence (with the
usual continuation, overlong, surrogate and range restrictions) and return
the decoded character together with the remaining bytes. -/
def utf8DecodeOne : List Nat → Option (Char × List Nat)
  | [] => none
  | b0 :: rest =>
    if b0 < 0x80 then some (Char.ofNat b0, rest)
    else if b0 < 0xC2 then none
    else if b0 < 0xE0 then
      match rest with
      | [] => none
      | b1 :: rest2 =>
        if isCont b1 then
          some (Char.ofNat ((b0 - 0xC0) * 0x40 + (b1 - 0x80)), rest2)
        else none
    else if b0 < 0xF0 then
      match rest with
      | b1 :: b2 :: rest3 =>
        if (if b0 = 0xE0 then 0xA0 ≤ b1 ∧ b1 < 0xC0
            else if b0 = 0xED then 0x80 ≤ b1 ∧ b1 < 0xA0
            else isCont b1) ∧ isCont b2 then
          some (Char.ofNat ((b0 - 0xE0) * 0x1000 + (b1 - 0x80) * 0x40 + (b2 - 0x80)), rest3)
        else none
      | _ => none
    else if b0 < 0xF5 then
      match rest with
      | b1 :: b2 :: b3 :: rest4 =>
        if (if b0 = 0xF0 then 0x90 ≤ b1 ∧ b1 < 0xC0
            else if b0 = 0xF4 then 0x80 ≤ b1 ∧ b1 < 0x90
            else isCont b1) ∧ isCont b2 ∧ isCont b3 then
          some (Char.ofNat ((b0 - 0xF0) * 0x40000 + (b1 - 0x80) * 0x1000 +
            (b2 - 0x80) * 0x40 + (b3 - 0x80)), rest4)
        else none
      | _ => none
    else none

/-- Iterate `utf8DecodeOne` until the input is exhausted.  Each step consumes
at least one byte, so fuel equal to the length suffices. -/
def utf8DecodeLoop : Nat → List Nat → Option (List Char)
  | 0, l => if l = [] then some [] else none
  | fuel + 1, l =>
    if l = [] then some []
    else
      match utf8DecodeOne l with
      | none => none
      | some (c, rest) => (utf8DecodeLoop fuel rest).map (fun s => c :: s)

/-- Full UTF-8 validation and decoding of a byte list, as
`String::from_utf8` performs: `none` exactly when the bytes are not valid
UTF-8. -/
def utf8Decode (l : List Nat) : Option (List Char) := utf8DecodeLoop l.length l

/-- The byte-level behaviour of `serial.rs` `read_fields` on one successfully
read chunk: NUL bytes are filtered out, the rest is decoded as UTF-8 with an
invalid chunk logged and replaced by empty text (the `String::default()`
branch), and the result is processed by the text-level core.  The transport
retry loop and its I/O error are not part of this pure core; given a
successful read the function cannot fail. -/
def read_fields_bytes (remainder : List Char) (chunk : List Nat) :
    List Char × List SensorField :=
  let filtered := chunk.filter (fun b => b ≠ 0)
  let read_text := (utf8Decode filtered).getD []
  read_fields_text remainder read_text

lemma rsplitOnceNl_eq_none (l : List Char) (h : '\n' ∉ l) : rsplitOnceNl l = none := by
  induction l with
  | nil => rfl
  | cons c cs ih =>
    rw [rsplitOnceNl, ih (fun hm => h (List.mem_cons_of_mem _ hm)),
      if_neg (fun hc => h (by rw [hc]; exact List.mem_cons_self _ _))]

/-- C10: when the NUL-filtered bytes of a chunk are not valid UTF-8, the
decoder substitutes empty text and continues: no fields are produced, no
error is raised (the function is total), and the carried-over remainder
(which never contains a newline) is returned unchanged. -/
theorem invalid_utf8_substitute_policy (remainder : List Char) (chunk : List Nat)
    (hbad : utf8Decode (chunk.filter (fun b => b ≠ 0)) = none)
    (hrem : '\n' ∉ remainder) :
    read_fields_bytes remainder chunk = (remainder, []) := by
  unfold read_fields_bytes read_fields_text
  dsimp only
  rw [hbad]
  simp only [Option.getD_none, List.append_nil]
  rw [rsplitOnceNl_eq_none remainder hrem]
  rfl

/-- Witness for C10: an isolated `0xFF` byte is rejected by the UTF-8 check
and the remainder `"abc"` passes through untouched. -/
theorem invalid_utf8_substitute_policy_witness :
    read_fields_bytes "abc".toList [255] = ("abc".toList, []) :=
  invalid_utf8_substitute_policy "abc".toList [255] (by decide) (by decide)

/-- The malformed-input scenario bytes of claim C7. -/
def c7Bytes : List Nat := "BAD_LINE_NO_DELIM\nPT0:f=3.14\n".toList.map Char.toNat

/-- Counterexample to C7 as stated: decoding the scenario bytes yields no
fields at all (not one field), because `PT0` is not among the checked field
names. -/
theorem malformed_line_scenario_not_as_claimed :
    (read_fields_bytes [] c7Bytes).2 = [] ∧
      ([] : List SensorField) ≠ [⟨"PT0".toList, SensorValue.float (157 / 50)⟩] := by
  constructor
  · decide
  · decide

/-- C7 (amended): the malformed first line is skipped and does not prevent
the next line from being parsed — the parse stage produces exactly
`PT0 = Float(3.14)` — but `read_fields`' checked-name filter then drops it,
so the call returns no fields (and an empty remainder); nothing panics, the
function being total. -/
theorem malformed_line_scenario :
    parsedFields "BAD_LINE_NO_DELIM\nPT0:f=3.14".toList =
        [⟨"PT0".toList, SensorValue.float (157 / 50)⟩] ∧
      read_fields_bytes [] c7Bytes = ([], []) := by
  constructor
  · have h1 : parsedFields "BAD_LINE_NO_DELIM\nPT0:f=3.14".toList =
        [⟨"PT0".toList, SensorValue.float ((digitsValue ['3'] : ℚ) +
          (digitsValue ['1', '4'] : ℚ) / (10 : ℚ) ^ (['1', '4'].length))⟩] := rfl
    have hq : (digitsValue ['3'] : ℚ) +
        (digitsValue ['1', '4'] : ℚ) / (10 : ℚ) ^ (['1', '4'].length) = 157 / 50 := by
      rw [show digitsValue ['3'] = 3 from by decide,
        show digitsValue ['1', '4'] = 14 from by decide,
        show (['1', '4'] : List Char).length = 2 from rfl]
      norm_num
    rw [hq] at h1
    exact h1
  · decide

/-- The character of a decimal digit. -/
def digitChar : Nat → Char
  | 0 => '0'
  | 1 => '1'
  | 2 => '2'
  | 3 => '3'
  | 4 => '4'
  | 5 => '5'
  | 6 => '6'
  | 7 => '7'
  | 8 => '8'
  | 9 => '9'
  | _ => '*'

/-- Little-endian base-10 digits with explicit fuel (structurally
recursive). -/
def natDigitsAux : Nat → Nat → List Nat
  | 0, _ => []
  | _ + 1, 0 => []
  | fuel + 1, n + 1 => ((n + 1) % 10) :: natDigitsAux fuel ((n + 1) / 10)

/-- Little-endian base-10 digits of `n` (empty for 0). -/
def natDigitsBase10 (n : Nat) : List Nat := natDigitsAux n n

/-- Rust's `Display` for an unsigned integer: most-significant digit first,
`"0"` for zero. -/
def renderNat (n : Nat) : List Char :=
  if n = 0 then ['0'] else ((natDigitsBase10 n).reverse).map digitChar

/-- Rust's `Display` for a signed integer. -/
def renderInt (i : Int) : List Char :=
  if i < 0 then '-' :: renderNat (-i).toNat else renderNat i.toNat

/-- The `Display` impl for `SensorValue` in `serial.rs`, which delegates to
the standard formatting of the payload.  `f64` formatting is abstracted as a
parameter, since the claims about re-encoding exclude floats. -/
def SensorValue.display (floatRender : ℚ → List Char) : SensorValue → List Char
  | SensorValue.unsignedInt v => renderNat v
  | SensorValue.signedInt v => renderInt v
  | SensorValue.float v => floatRender v
  | SensorValue.boolean b => if b then "true".toList else "false".toList

/-- The wire type tag of a sensor value. -/
def SensorValue.typeTag : SensorValue → Char
  | SensorValue.unsignedInt _ => 'u'
  | SensorValue.signedInt _ => 'i'
  | SensorValue.float _ => 'f'
  | SensorValue.boolean _ => 'b'

/-- The value is of unsigned-integer, signed-integer or boolean kind. -/
def SensorValue.isIntOrBool : SensorValue → Prop
  | SensorValue.float _ => False
  | _ => True

/-- The payload fits the machine-integer type it models (`u64`/`i64`). -/
def SensorValue.inMachineRange : SensorValue → Prop
  | SensorValue.unsignedInt v => v < 2 ^ 64
  | SensorValue.signedInt v => -(2 ^ 63) ≤ v ∧ v < 2 ^ 63
  | _ => True

lemma digitVal_digitChar (d : Nat) (h : d < 10) : digitVal (digitChar d) = some d := by
  interval_cases d <;> decide

lemma digitChar_not_special (d : Nat) (h : d < 10) :
    digitChar d ≠ '+' ∧ digitChar d ≠ '-' ∧ digitChar d ≠ '=' := by
  interval_cases d <;> decide

lemma natDigitsAux_lt (fuel n : Nat) : ∀ d ∈ natDigitsAux fuel n, d < 10 := by
  induction fuel generalizing n with
  | zero => intro d hd; simp [natDigitsAux] at hd
  | succ fuel ih =>
    intro d hd
    cases n with
    | zero => simp [natDigitsAux] at hd
    | succ m =>
      rw [natDigitsAux] at hd
      rcases List.mem_cons.mp hd with h | h
      · rw [h]; exact Nat.mod_lt _ (by norm_num)
      · exact ih _ d h

lemma natDigitsAux_ofDigits (fuel : Nat) : ∀ n, n ≤ fuel →
    Nat.ofDigits 10 (natDigitsAux fuel n) = n := by
  induction fuel with
  | zero =>
    intro n hn
    interval_cases n
    rfl
  | succ fuel ih =>
    intro n hn
    cases n with
    | zero => rfl
    | succ m =>
      rw [natDigitsAux, Nat.ofDigits_cons, ih ((m + 1) / 10) (by omega)]
      omega

lemma natDigitsBase10_lt (n : Nat) : ∀ d ∈ natDigitsBase10 n, d < 10 :=
  natDigitsAux_lt n n

lemma natDigitsBase10_ofDigits (n : Nat) : Nat.ofDigits 10 (natDigitsBase10 n) = n :=
  natDigitsAux_ofDigits n n (Nat.le_refl n)

lemma parseNatDigits_go (M : List Nat) (hM : ∀ d ∈ M, d < 10) : ∀ a : Nat,
    List.foldl (fun acc c => acc.bind (fun x => (digitVal c).map (fun d => x * 10 + d)))
      (some a) (M.map digitChar) = some (M.foldl (fun x d => x * 10 + d) a) := by
  induction M with
  | nil => intro a; rfl
  | cons d M ih =>
    intro a
    simp only [List.map_cons, List.foldl_cons]
    have hd : digitVal (digitChar d) = some d :=
      digitVal_digitChar d (hM d (List.mem_cons_self d M))
    have hstep : ((some a).bind (fun x => (digitVal (digitChar d)).map (fun e => x * 10 + e)))
        = some (a * 10 + d) := by
      simp [hd]
    rw [hstep]
    exact ih (fun e he => hM e (List.mem_cons_of_mem _ he)) (a * 10 + d)

lemma foldl_mul_add_reverse (L : List Nat) : ∀ a : Nat,
    (L.reverse).foldl (fun x d => x * 10 + d) a = a * 10 ^ L.length + Nat.ofDigits 10 L := by
  induction L with
  | nil => intro a; simp [Nat.ofDigits]
  | cons d L ih =>
    intro a
    rw [List.reverse_cons, List.foldl_append, ih a]
    simp only [List.foldl_cons, List.foldl_nil, Nat.ofDigits_cons, List.length_cons]
    ring

lemma parseNatDigits_renderNat (n : Nat) : parseNatDigits (renderNat n) = some n := by
  by_cases h0 : n = 0
  · subst h0; decide
  · have hfuel : natDigitsBase10 n ≠ [] := by
      unfold natDigitsBase10
      cases n with
      | zero => exact absurd rfl h0
      | succ m => rw [natDigitsAux]; exact List.cons_ne_nil _ _
    rw [renderNat, if_neg h0, parseNatDigits, if_neg (by simp [hfuel])]
    rw [parseNatDigits_go ((natDigitsBase10 n).reverse)
      (fun d hd => natDigitsBase10_lt n d (List.mem_reverse.mp hd)) 0]
    rw [foldl_mul_add_reverse, natDigitsBase10_ofDigits n]
    simp

lemma renderNat_shape (n : Nat) : ∃ d rest, d < 10 ∧ renderNat n = digitChar d :: rest := by
  by_cases h0 : n = 0
  · subst h0; exact ⟨0, [], by norm_num, rfl⟩
  · rw [renderNat, if_neg h0]
    have hne : (natDigitsBase10 n).reverse ≠ [] := by
      simp only [ne_eq, List.reverse_eq_nil_iff]
      unfold natDigitsBase10
      cases n with
      | zero => exact absurd rfl h0
      | succ m => rw [natDigitsAux]; exact List.cons_ne_nil _ _
    obtain ⟨d, ds, hds⟩ := List.exists_cons_of_ne_nil hne
    refine ⟨d, ds.map digitChar, ?_, by rw [hds, List.map_cons]⟩
    exact natDigitsBase10_lt n d (List.mem_reverse.mp (by rw [hds]; exact List.mem_cons_self _ _))

lemma mem_renderNat (n : Nat) (c : Char) (hc : c ∈ renderNat n) :
    ∃ d, d < 10 ∧ c = digitChar d := by
  by_cases h0 : n = 0
  · subst h0
    rw [renderNat, if_pos rfl, List.mem_singleton] at hc
    exact ⟨0, by norm_num, by rw [hc]; rfl⟩
  · rw [renderNat, if_neg h0] at hc
    obtain ⟨d, hdm, hde⟩ := List.mem_map.mp hc
    exact ⟨d, natDigitsBase10_lt n d (List.mem_reverse.mp hdm), hde.symm⟩

lemma eq_char_not_mem_renderNat (n : Nat) : '=' ∉ renderNat n := by
  intro hmem
  obtain ⟨d, hd, he⟩ := mem_renderNat n '=' hmem
  exact (digitChar_not_special d hd).2.2 he.symm

lemma stripLeadingPlus_renderNat (n : Nat) : stripLeadingPlus (renderNat n) = renderNat n := by
  obtain ⟨d, rest, hd, hn⟩ := renderNat_shape n
  rw [hn]
  simp only [stripLeadingPlus]
  rw [if_neg (digitChar_not_special d hd).1]

lemma splitSign_renderNat (n : Nat) : splitSign (renderNat n) = (false, renderNat n) := by
  obtain ⟨d, rest, hd, hn⟩ := renderNat_shape n
  rw [hn]
  simp only [splitSign]
  rw [if_neg (digitChar_not_special d hd).1, if_neg (digitChar_not_special d hd).2.1]

lemma parseU64_renderNat (n : Nat) (hn : n < 2 ^ 64) : parseU64 (renderNat n) = some n := by
  rw [parseU64, stripLeadingPlus_renderNat, parseNatDigits_renderNat]
  dsimp only [Option.bind]
  rw [if_pos hn]

lemma parseI64_renderInt (i : Int) (hr : -(2 ^ 63) ≤ i ∧ i < 2 ^ 63) :
    parseI64 (renderInt i) = some i := by
  by_cases hneg : i < 0
  · rw [renderInt, if_pos hneg, parseI64]
    have hss : splitSign ('-' :: renderNat (-i).toNat) = (true, renderNat (-i).toNat) := by
      simp [splitSign]
    have hm : (((-i).toNat : Int)) = -i := Int.toNat_of_nonneg (by omega)
    rw [hss]
    dsimp only
    rw [parseNatDigits_renderNat, Option.some_bind']
    rw [if_pos (show (true : Bool) = true from rfl), hm, neg_neg, if_pos hr]
  · rw [renderInt, if_neg hneg, parseI64, splitSign_renderNat]
    have hm : ((i.toNat : Int)) = i := Int.toNat_of_nonneg (by omega)
    dsimp only
    rw [parseNatDigits_renderNat, Option.some_bind']
    rw [if_neg (show ¬((false : Bool) = true) from by decide), hm, if_pos hr]

lemma splitOnChar_of_not_mem (sep : Char) (l : List Char) (h : sep ∉ l) :
    splitOnChar sep l = [l] := by
  induction l with
  | nil => rfl
  | cons c cs ih =>
    rw [splitOnChar, if_neg (fun hc => h (by rw [hc]; exact List.mem_cons_self _ _)),
      ih (fun hm => h (List.mem_cons_of_mem _ hm))]

lemma splitOnChar_cons_sep (sep t : Char) (rest : List Char) (ht : t ≠ sep) (hr : sep ∉ rest) :
    splitOnChar sep (t :: sep :: rest) = [[t], rest] := by
  rw [splitOnChar, if_neg ht, splitOnChar, if_pos rfl, splitOnChar_of_not_mem sep rest hr]

/-- C8 (amended): decoding then re-encoding is lossless for unsigned-integer,
signed-integer and boolean values in canonical literal form — equivalently,
for every in-range value of those kinds, re-encoding (`Display`) and parsing
the re-encoded token reproduces the value exactly. -/
theorem value_codec_roundtrip (floatRender : ℚ → List Char) (v : SensorValue)
    (hk : v.isIntOrBool) (hr : v.inMachineRange) :
    parse_sensor_value (v.typeTag :: '=' :: v.display floatRender) = Except.ok v := by
  cases v with
  | float q => exact absurd hk (by simp [SensorValue.isIntOrBool])
  | boolean b =>
    cases b with
    | false =>
      show parse_sensor_value ('b' :: '=' :: "false".toList) =
        Except.ok (SensorValue.boolean false)
      decide
    | true =>
      show parse_sensor_value ('b' :: '=' :: "true".toList) =
        Except.ok (SensorValue.boolean true)
      decide
  | unsignedInt n =>
    have hsplit : splitOnChar '=' ('u' :: '=' :: renderNat n) = [['u'], renderNat n] :=
      splitOnChar_cons_sep '=' 'u' (renderNat n) (by decide) (eq_char_not_mem_renderNat n)
    show parse_sensor_value ('u' :: '=' :: renderNat n) = Except.ok (SensorValue.unsignedInt n)
    rw [parse_sensor_value, hsplit]
    rw [if_neg (by norm_num)]
    simp only [List.head?_cons, List.drop_succ_cons, List.drop_zero, if_true]
    rw [parseU64_renderNat n hr]
  | signedInt i =>
    have hmem : '=' ∉ renderInt i := by
      intro hmem
      rw [renderInt] at hmem
      split at hmem
      · rcases List.mem_cons.mp hmem with h | h
        · exact absurd h (by decide)
        · exact eq_char_not_mem_renderNat _ h
      · exact eq_char_not_mem_renderNat _ hmem
    have hsplit : splitOnChar '=' ('i' :: '=' :: renderInt i) = [['i'], renderInt i] :=
      splitOnChar_cons_sep '=' 'i' (renderInt i) (by decide) hmem
    show parse_sensor_value ('i' :: '=' :: renderInt i) = Except.ok (SensorValue.signedInt i)
    rw [parse_sensor_value, hsplit]
    rw [if_neg (by norm_num)]
    simp only [List.head?_cons, List.drop_succ_cons, List.drop_zero, if_true]
    rw [parseI64_renderInt i hr,
      if_neg (show ¬((['i'] : List Char) = ['u']) from by decide)]

/-- Witness for C8 at concrete values of all three covered kinds. -/
theorem value_codec_roundtrip_witness :
    parse_sensor_value ((SensorValue.unsignedInt 123).typeTag :: '=' ::
        (SensorValue.unsignedInt 123).display (fun _ => [])) =
      Except.ok (SensorValue.unsignedInt 123) ∧
    parse_sensor_value ((SensorValue.signedInt (-45)).typeTag :: '=' ::
        (SensorValue.signedInt (-45)).display (fun _ => [])) =
      Except.ok (SensorValue.signedInt (-45)) ∧
    parse_sensor_value ((SensorValue.boolean true).typeTag :: '=' ::
        (SensorValue.boolean true).display (fun _ => [])) =
      Except.ok (SensorValue.boolean true) :=
  ⟨value_codec_roundtrip (fun _ => []) (SensorValue.unsignedInt 123) trivial
      (show (123 : Nat) < 2 ^ 64 by norm_num),
    value_codec_roundtrip (fun _ => []) (SensorValue.signedInt (-45)) trivial
      (show -(2 ^ 63) ≤ (-45 : Int) ∧ (-45 : Int) < 2 ^ 63 by constructor <;> norm_num),
    value_codec_roundtrip (fun _ => []) (SensorValue.boolean true) trivial trivial⟩

/-- Counterexample to C8 as stated: `u=007` is a valid line value token, but
re-encoding the parsed value yields `7`, not the original literal `007`. -/
theorem value_codec_roundtrip_not_as_claimed :
    parse_sensor_value "u=007".toList = Except.ok (SensorValue.unsignedInt 7) ∧
      (SensorValue.unsignedInt 7).display (fun _ => []) = "7".toList ∧
      "7".toList ≠ "007".toList := by
  refine ⟨by decide, by decide, by decide⟩

lemma utf8DecodeOne_cons (b0 : Nat) (rest : List Nat) :
    utf8DecodeOne (b0 :: rest) =
      (if b0 < 0x80 then some (Char.ofNat b0, rest)
      else if b0 < 0xC2 then none
      else if b0 < 0xE0 then
        match rest with
        | [] => none
        | b1 :: rest2 =>
          if isCont b1 then
            some (Char.ofNat ((b0 - 0xC0) * 0x40 + (b1 - 0x80)), rest2)
          else none
      else if b0 < 0xF0 then
        match rest with
        | b1 :: b2 :: rest3 =>
          if (if b0 = 0xE0 then 0xA0 ≤ b1 ∧ b1 < 0xC0
              else if b0 = 0xED then 0x80 ≤ b1 ∧ b1 < 0xA0
              else isCont b1) ∧ isCont b2 then
            some (Char.ofNat ((b0 - 0xE0) * 0x1000 + (b1 - 0x80) * 0x40 + (b2 - 0x80)), rest3)
          else none
        | _ => none
      else if b0 < 0xF5 then
        match rest with
        | b1 :: b2 :: b3 :: rest4 =>
          if (if b0 = 0xF0 then 0x90 ≤ b1 ∧ b1 < 0xC0
              else if b0 = 0xF4 then 0x80 ≤ b1 ∧ b1 < 0x90
              else isCont b1) ∧ isCont b2 ∧ isCont b3 then
            some (Char.ofNat ((b0 - 0xF0) * 0x40000 + (b1 - 0x80) * 0x1000 +
              (b2 - 0x80) * 0x40 + (b3 - 0x80)), rest4)
          else none
        | _ => none
      else none) := rfl

set_option maxRecDepth 8000 in
set_option maxHeartbeats 2000000 in
lemma utf8DecodeOne_shorter (l : List Nat) (c : Char) (rest : List Nat)
    (h : utf8DecodeOne l = some (c, rest)) : rest.length < l.length := by
  cases l with
  | nil => simp [utf8DecodeOne] at h
  | cons b0 l2 =>
    rw [utf8DecodeOne_cons] at h
    split at h <;> (try split at h) <;> (try split at h) <;> (try split at h) <;>
      (try split at h) <;> (try split at h) <;> (try split at h)
    all_goals (try exact Option.noConfusion h)
    all_goals (try simp_all [List.length_cons])
    all_goals omega

set_option maxRecDepth 8000 in
set_option maxHeartbeats 2000000 in
lemma utf8DecodeOne_append (l : List Nat) (c : Char) (rest : List Nat) (b : List Nat)
    (h : utf8DecodeOne l = some (c, rest)) :
    utf8DecodeOne (l ++ b) = some (c, rest ++ b) := by
  cases l with
  | nil => simp [utf8DecodeOne] at h
  | cons b0 l2 =>
    rw [utf8DecodeOne_cons] at h
    rw [List.cons_append, utf8DecodeOne_cons]
    split at h <;> (try split at h) <;> (try split at h) <;> (try split at h) <;>
      (try split at h) <;> (try split at h) <;> (try split at h)
    all_goals (try exact Option.noConfusion h)
    all_goals (try simp_all [List.cons_append])
    all_goals (split_ifs <;> first | rfl | omega)

lemma utf8DecodeLoop_fuel (f1 : Nat) : ∀ (f2 : Nat) (l : List Nat), l.length ≤ f1 →
    l.length ≤ f2 → utf8DecodeLoop f1 l = utf8DecodeLoop f2 l := by
  induction f1 with
  | zero =>
    intro f2 l h1 h2
    have hl : l = [] := List.eq_nil_of_length_eq_zero (by omega)
    subst hl
    cases f2 <;> rfl
  | succ f1 ih =>
    intro f2 l h1 h2
    cases l with
    | nil => cases f2 <;> rfl
    | cons b0 l2 =>
      cases f2 with
      | zero => simp only [List.length_cons] at h2; omega
      | succ f2 =>
        rw [utf8DecodeLoop, utf8DecodeLoop,
          if_neg (List.cons_ne_nil b0 l2), if_neg (List.cons_ne_nil b0 l2)]
        cases hone : utf8DecodeOne (b0 :: l2) with
        | none => rfl
        | some p =>
          obtain ⟨c, rest⟩ := p
          have hlt := utf8DecodeOne_shorter _ _ _ hone
          simp only [List.length_cons] at hlt h1 h2
          dsimp only
          rw [ih f2 rest (by omega) (by omega)]

lemma utf8DecodeLoop_append (fuel : Nat) : ∀ (a : List Nat) (s : List Char) (b : List Nat),
    a.length ≤ fuel → utf8DecodeLoop fuel a = some s →
    utf8DecodeLoop (fuel + b.length) (a ++ b) =
      (utf8DecodeLoop b.length b).map (fun t => s ++ t) := by
  induction fuel with
  | zero =>
    intro a s b hlen h
    have ha : a = [] := List.eq_nil_of_length_eq_zero (by omega)
    subst ha
    rw [show utf8DecodeLoop 0 [] = some [] from rfl] at h
    cases h
    rw [List.nil_append, Nat.zero_add]
    cases hb : utf8DecodeLoop b.length b <;> rfl
  | succ fuel ih =>
    intro a s b hlen h
    cases a with
    | nil =>
      rw [show utf8DecodeLoop (fuel + 1) [] = some [] from rfl] at h
      cases h
      rw [List.nil_append]
      rw [utf8DecodeLoop_fuel (fuel + 1 + b.length) b.length b (by omega) (Nat.le_refl _)]
      cases hb : utf8DecodeLoop b.length b <;> rfl
    | cons b0 a2 =>
      rw [utf8DecodeLoop, if_neg (List.cons_ne_nil b0 a2)] at h
      rw [List.cons_append, show fuel + 1 + b.length = (fuel + b.length) + 1 from by omega,
        utf8DecodeLoop, if_neg (List.cons_ne_nil b0 (a2 ++ b))]
      cases hone : utf8DecodeOne (b0 :: a2) with
      | none => rw [hone] at h; exact Option.noConfusion h
      | some p =>
        obtain ⟨c, rest⟩ := p
        rw [hone] at h
        dsimp only at h
        rw [show utf8DecodeOne (b0 :: (a2 ++ b)) = some (c, rest ++ b) from by
          rw [← List.cons_append]; exact utf8DecodeOne_append _ _ _ b hone]
        dsimp only
        cases hrest : utf8DecodeLoop fuel rest with
        | none => rw [hrest] at h; exact Option.noConfusion h
        | some t =>
          rw [hrest] at h
          simp only [Option.map_some'] at h
          cases h
          have hlt := utf8DecodeOne_shorter _ _ _ hone
          have hlen2 : rest.length ≤ fuel := by
            simp only [List.length_cons] at hlt hlen; omega
          rw [ih rest t b hlen2 hrest]
          cases hb : utf8DecodeLoop b.length b <;> rfl

lemma utf8Decode_append (a : List Nat) (s : List Char) (h : utf8Decode a = some s)
    (b : List Nat) : utf8Decode (a ++ b) = (utf8Decode b).map (fun t => s ++ t) := by
  unfold utf8Decode at h ⊢
  rw [List.length_append]
  exact utf8DecodeLoop_append a.length a s b (Nat.le_refl _) h

lemma splitOnChar_ne_nil (sep : Char) (l : List Char) : splitOnChar sep l ≠ [] := by
  cases l with
  | nil => simp [splitOnChar]
  | cons c cs =>
    rw [splitOnChar]
    split
    · simp
    · split <;> simp

lemma splitOnChar_append (sep : Char) (a b : List Char) :
    splitOnChar sep (a ++ sep :: b) = splitOnChar sep a ++ splitOnChar sep b := by
  induction a with
  | nil =>
    rw [List.nil_append, show splitOnChar sep [] = [[]] from rfl, splitOnChar, if_pos rfl]
    rfl
  | cons c a2 ih =>
    by_cases hc : c = sep
    · subst hc
      rw [List.cons_append, splitOnChar, if_pos rfl, ih, splitOnChar, if_pos rfl,
        List.cons_append]
    · rw [List.cons_append, splitOnChar, if_neg hc, ih, splitOnChar, if_neg hc]
      obtain ⟨l, ls, hl⟩ := List.exists_cons_of_ne_nil (splitOnChar_ne_nil sep a2)
      rw [hl]
      rfl

lemma rsplitOnceNl_not_mem (s : List Char) (h : rsplitOnceNl s = none) : '\n' ∉ s := by
  induction s with
  | nil => simp
  | cons c cs ih =>
    rw [rsplitOnceNl] at h
    cases hcs : rsplitOnceNl cs with
    | some p =>
      obtain ⟨l, r⟩ := p
      rw [hcs] at h
      exact Option.noConfusion h
    | none =>
      rw [hcs] at h
      dsimp only at h
      intro hm
      rcases List.mem_cons.mp hm with hc | hm2
      · rw [← hc] at h
        simp at h
      · exact ih hcs hm2

lemma rsplitOnceNl_rem (s : List Char) : ∀ l r, rsplitOnceNl s = some (l, r) →
    s = l ++ '\n' :: r ∧ '\n' ∉ r := by
  induction s with
  | nil => intro l r h; exact Option.noConfusion h
  | cons c cs ih =>
    intro l r h
    rw [rsplitOnceNl] at h
    cases hcs : rsplitOnceNl cs with
    | some p =>
      obtain ⟨l2, r2⟩ := p
      rw [hcs] at h
      dsimp only at h
      injection h with h2
      have hl : c :: l2 = l := congrArg Prod.fst h2
      have hr : r2 = r := congrArg Prod.snd h2
      subst hl
      subst hr
      obtain ⟨hs, hnr⟩ := ih l2 r2 hcs
      refine ⟨?_, hnr⟩
      rw [List.cons_append, ← hs]
    | none =>
      rw [hcs] at h
      dsimp only at h
      by_cases hc : c = '\n'
      · rw [if_pos hc] at h
        injection h with h2
        have hl : ([] : List Char) = l := congrArg Prod.fst h2
        have hr : cs = r := congrArg Prod.snd h2
        subst hl
        subst hr
        subst hc
        exact ⟨rfl, rsplitOnceNl_not_mem cs hcs⟩
      · rw [if_neg hc] at h
        exact Option.noConfusion h

lemma rsplitOnceNl_append_some (a b : List Char) (l r : List Char)
    (h : rsplitOnceNl b = some (l, r)) : rsplitOnceNl (a ++ b) = some (a ++ l, r) := by
  induction a with
  | nil => simpa using h
  | cons c a2 ih =>
    rw [List.cons_append, rsplitOnceNl, ih]
    rfl

lemma rsplitOnceNl_append_none (a b : List Char) (h : rsplitOnceNl b = none) :
    rsplitOnceNl (a ++ b) = (rsplitOnceNl a).map (fun p => (p.1, p.2 ++ b)) := by
  induction a with
  | nil => simp [h, rsplitOnceNl]
  | cons c a2 ih =>
    rw [List.cons_append, rsplitOnceNl, ih, rsplitOnceNl]
    cases ha : rsplitOnceNl a2 with
    | some p =>
      obtain ⟨l, r⟩ := p
      rfl
    | none =>
      by_cases hc : c = '\n' <;> simp [hc]

lemma parse_sensor_field_nil_toOption :
    (parse_sensor_field ([] : List Char)).toOption = none := by decide

lemma fieldsOf_nil : fieldsOf ([] : List Char) = [] := by decide

lemma fieldsOf_eq_parts (a : List Char) :
    fieldsOf a = (((splitOnChar '\n' a).map stripCR).filterMap
        (fun line => (parse_sensor_field line).toOption)).filter
      (fun field => decide (field.name ∈ CHECKED_FIELD_NAMES)) := by
  rw [fieldsOf, parsedFields, rustLines]
  by_cases hlast : (splitOnChar '\n' a).getLast? = some ([] : List Char)
  · rw [if_pos hlast]
    have hne := splitOnChar_ne_nil '\n' a
    have hlg : (splitOnChar '\n' a).getLast hne = [] := by
      have h2 := List.getLast?_eq_getLast (splitOnChar '\n' a) hne
      rw [hlast] at h2
      exact (Option.some.inj h2).symm
    conv_rhs => rw [← List.dropLast_append_getLast hne, hlg]
    rw [List.map_append, List.filterMap_append, List.filter_append]
    simp [stripCR, parse_sensor_field_nil_toOption]
  · rw [if_neg hlast]

lemma fieldsOf_append (a b : List Char) :
    fieldsOf (a ++ '\n' :: b) = fieldsOf a ++ fieldsOf b := by
  rw [fieldsOf_eq_parts (a ++ '\n' :: b), splitOnChar_append, List.map_append,
    List.filterMap_append, List.filter_append, ← fieldsOf_eq_parts a,
    ← fieldsOf_eq_parts b]

lemma read_fields_text_append (rem a b : List Char) :
    read_fields_text rem (a ++ b) =
      ((read_fields_text (read_fields_text rem a).1 b).1,
        (read_fields_text rem a).2 ++
          (read_fields_text (read_fields_text rem a).1 b).2) := by
  cases hb : rsplitOnceNl b with
  | some p =>
    obtain ⟨l2, r2⟩ := p
    have hw : rsplitOnceNl (rem ++ (a ++ b)) = some ((rem ++ a) ++ l2, r2) := by
      rw [← List.append_assoc]
      exact rsplitOnceNl_append_some _ _ _ _ hb
    cases ha : rsplitOnceNl (rem ++ a) with
    | some q =>
      obtain ⟨l1, r1⟩ := q
      obtain ⟨hsa, hnr1⟩ := rsplitOnceNl_rem (rem ++ a) l1 r1 ha
      have h2 : rsplitOnceNl (r1 ++ b) = some (r1 ++ l2, r2) :=
        rsplitOnceNl_append_some _ _ _ _ hb
      simp only [read_fields_text, hw, ha, h2]
      rw [hsa, List.append_assoc, List.cons_append, fieldsOf_append]
    | none =>
      have h2 : rsplitOnceNl ((rem ++ a) ++ b) = some ((rem ++ a) ++ l2, r2) :=
        rsplitOnceNl_append_some _ _ _ _ hb
      simp only [read_fields_text, hw, ha, h2]
      rw [fieldsOf_nil, List.nil_append]
  | none =>
    cases ha : rsplitOnceNl (rem ++ a) with
    | some q =>
      obtain ⟨l1, r1⟩ := q
      obtain ⟨hsa, hnr1⟩ := rsplitOnceNl_rem (rem ++ a) l1 r1 ha
      have hw : rsplitOnceNl (rem ++ (a ++ b)) = some (l1, r1 ++ b) := by
        rw [← List.append_assoc, rsplitOnceNl_append_none _ _ hb, ha]
        rfl
      have h2 : rsplitOnceNl (r1 ++ b) = none := by
        rw [rsplitOnceNl_append_none _ _ hb, rsplitOnceNl_eq_none r1 hnr1]
        rfl
      simp only [read_fields_text, hw, ha, h2]
      rw [fieldsOf_nil, List.append_nil]
    | none =>
      have hw : rsplitOnceNl (rem ++ (a ++ b)) = none := by
        rw [← List.append_assoc, rsplitOnceNl_append_none _ _ hb, ha]
        rfl
      have h2 : rsplitOnceNl ((rem ++ a) ++ b) = none := by
        rw [rsplitOnceNl_append_none _ _ hb, ha]
        rfl
      simp only [read_fields_text, hw, ha, h2]
      rw [fieldsOf_nil, List.append_nil, List.append_assoc]

/-- C5 (amended): remainder threading is correct provided each chunk's
NUL-filtered bytes are themselves valid UTF-8 (the claim as stated, for an
arbitrary byte boundary, fails when the boundary cuts a multi-byte UTF-8
character: see the counterexample).  Under that hypothesis, decoding the
first chunk with an empty remainder and then the second chunk with the
returned remainder yields the same fields, in order, and the same final
remainder as decoding the whole stream in one call. -/
theorem field_decoder_remainder_correct (stream c1 c2 : List Nat)
    (hsplit : stream = c1 ++ c2)
    (h1 : utf8Decode (c1.filter (fun b => b ≠ 0)) ≠ none)
    (h2 : utf8Decode (c2.filter (fun b => b ≠ 0)) ≠ none) :
    read_fields_bytes [] stream =
      ((read_fields_bytes (read_fields_bytes [] c1).1 c2).1,
        (read_fields_bytes [] c1).2 ++
          (read_fields_bytes (read_fields_bytes [] c1).1 c2).2) := by
  subst hsplit
  obtain ⟨ca, hca⟩ := Option.ne_none_iff_exists'.mp h1
  obtain ⟨cb, hcb⟩ := Option.ne_none_iff_exists'.mp h2
  have hdec : utf8Decode ((c1 ++ c2).filter (fun b => b ≠ 0)) = some (ca ++ cb) := by
    rw [List.filter_append, utf8Decode_append _ _ hca, hcb]
    rfl
  simp only [read_fields_bytes, hdec, hca, hcb, Option.getD_some]
  exact read_fields_text_append [] ca cb

/-- First chunk of the C5 witness split: a prefix of a two-line stream cut in
the middle of a line (but on a character boundary). -/
def c5Chunk1 : List Nat := "NP1_OPEN:b=tr".toList.map Char.toNat

/-- Second chunk of the C5 witness split. -/
def c5Chunk2 : List Nat := "ue\nNP2_OPEN:b=false\n".toList.map Char.toNat

theorem field_decoder_remainder_correct_witness :
    read_fields_bytes [] (c5Chunk1 ++ c5Chunk2) =
      ((read_fields_bytes (read_fields_bytes [] c5Chunk1).1 c5Chunk2).1,
        (read_fields_bytes [] c5Chunk1).2 ++
          (read_fields_bytes (read_fields_bytes [] c5Chunk1).1 c5Chunk2).2) :=
  field_decoder_remainder_correct _ c5Chunk1 c5Chunk2 rfl (by decide) (by decide)

/-- First chunk of the counterexample split: the boundary cuts the two-byte
UTF-8 encoding of an accented character. -/
def c5BadChunk1 : List Nat := [0x41, 0xC3]

/-- Second chunk of the counterexample split: starts with the orphaned
continuation byte, followed by a perfectly well-formed field line. -/
def c5BadChunk2 : List Nat :=
  [0xA9, 0x0A] ++ "NP1_OPEN:b=true".toList.map Char.toNat ++ [0x0A]

/-- Counterexample to C5 as stated: for an arbitrary byte boundary the claim
is false.  Cutting the stream `"Aé\nNP1_OPEN:b=true\n"` inside the
two-byte encoding of the accented character makes both chunks individually
invalid UTF-8, so the threaded decode substitutes empty text twice and
produces no fields, while the single-call decode of the whole stream
produces the NP1_OPEN field. -/
theorem field_decoder_split_not_as_claimed :
    ¬ read_fields_bytes [] (c5BadChunk1 ++ c5BadChunk2) =
      ((read_fields_bytes (read_fields_bytes [] c5BadChunk1).1 c5BadChunk2).1,
        (read_fields_bytes [] c5BadChunk1).2 ++
          (read_fields_bytes (read_fields_bytes [] c5BadChunk1).1 c5BadChunk2).2) := by
  decide

end Nile
